import Mathlib

/-!
Verification of the `our_db` migration subsystem (`our_db/migrations.py`):
migration discovery, versioning, checksum integrity and the
up/down/bootstrap protocol of `MigrationRunner`, together with its
persisted "applied migrations" ledger.

The migration module itself is shallowly embedded below.  Filesystem
artifacts are records carrying the observable attributes a migration
module exposes; the database ledger and the invocation of up/down
actions are tracked in an explicit `World` state threaded through the
runner operations.
-/

namespace OurDb

/-! ## Lexicographic string order (code-point comparison, as in Python) -/

/-- Lexicographic `≤` on character lists, comparing code points. -/
def lexLe : List Char → List Char → Bool
  | [], _ => true
  | _ :: _, [] => false
  | a :: as, b :: bs =>
    if a.toNat < b.toNat then true
    else if b.toNat < a.toNat then false
    else lexLe as bs

/-- Lexicographic `≤` on strings. -/
def strLe (a b : String) : Bool := lexLe a.data b.data

/-- Strict lexicographic `<` on strings. -/
def strLt (a b : String) : Bool := strLe a b && a != b

theorem lexLe_total (a b : List Char) : lexLe a b = true ∨ lexLe b a = true := by
  induction a generalizing b with
  | nil => left; simp [lexLe]
  | cons x as ih =>
    cases b with
    | nil => right; simp [lexLe]
    | cons y bs =>
      by_cases h1 : x.toNat < y.toNat
      · left; simp [lexLe, h1]
      · by_cases h2 : y.toNat < x.toNat
        · right; simp [lexLe, h2]
        · rcases ih bs with h | h
          · left; simp [lexLe, h1, h2, h]
          · right; simp [lexLe, h1, h2, h]

theorem lexLe_trans : ∀ a b c : List Char,
    lexLe a b = true → lexLe b c = true → lexLe a c = true := by
  intro a
  induction a with
  | nil => intro b c _ _; simp [lexLe]
  | cons x as ih =>
    intro b c hab hbc
    cases b with
    | nil => simp [lexLe] at hab
    | cons y bs =>
      cases c with
      | nil => simp [lexLe] at hbc
      | cons z cs =>
        by_cases hxy : x.toNat < y.toNat
        · by_cases hyz : y.toNat < z.toNat
          · have h : x.toNat < z.toNat := by omega
            simp [lexLe, h]
          · by_cases hzy : z.toNat < y.toNat
            · simp [lexLe, hyz, hzy] at hbc
            · have h : x.toNat < z.toNat := by omega
              simp [lexLe, h]
        · by_cases hyx : y.toNat < x.toNat
          · simp [lexLe, hxy, hyx] at hab
          · by_cases hyz : y.toNat < z.toNat
            · have h : x.toNat < z.toNat := by omega
              simp [lexLe, h]
            · by_cases hzy : z.toNat < y.toNat
              · simp [lexLe, hyz, hzy] at hbc
              · have h1 : ¬ x.toNat < z.toNat := by omega
                have h2 : ¬ z.toNat < x.toNat := by omega
                simp [lexLe, hxy, hyx] at hab
                simp [lexLe, hyz, hzy] at hbc
                simp [lexLe, h1, h2]
                exact ih bs cs hab hbc

theorem lexLe_antisymm : ∀ a b : List Char,
    lexLe a b = true → lexLe b a = true → a = b := by
  intro a
  induction a with
  | nil =>
    intro b h1 h2
    cases b with
    | nil => rfl
    | cons y bs => simp [lexLe] at h2
  | cons x as ih =>
    intro b h1 h2
    cases b with
    | nil => simp [lexLe] at h1
    | cons y bs =>
      by_cases hxy : x.toNat < y.toNat
      · have h : ¬ y.toNat < x.toNat := by omega
        simp [lexLe, hxy, h] at h2
      · by_cases hyx : y.toNat < x.toNat
        · simp [lexLe, hxy, hyx] at h1
        · have hn : x.toNat = y.toNat := by omega
          have exy : x = y := Char.ext (UInt32.ext hn)
          simp [lexLe, hxy, hyx] at h1 h2
          rw [exy, ih bs h1 h2]

theorem strLe_total (a b : String) : strLe a b = true ∨ strLe b a = true :=
  lexLe_total a.data b.data

theorem strLe_trans {a b c : String} (h1 : strLe a b = true) (h2 : strLe b c = true) :
    strLe a c = true :=
  lexLe_trans a.data b.data c.data h1 h2

theorem strLe_antisymm {a b : String} (h1 : strLe a b = true) (h2 : strLe b a = true) :
    a = b := by
  cases a with
  | mk da =>
    cases b with
    | mk db => exact congrArg String.mk (lexLe_antisymm da db h1 h2)

theorem strLt_iff {a b : String} : strLt a b = true ↔ strLe a b = true ∧ a ≠ b := by
  simp [strLt]

theorem strLt_of_le_of_lt {a b c : String}
    (h1 : strLe a b = true) (h2 : strLt b c = true) : strLt a c = true := by
  rcases strLt_iff.mp h2 with ⟨hbc, hne⟩
  refine strLt_iff.mpr ⟨strLe_trans h1 hbc, ?_⟩
  intro hac
  exact hne (strLe_antisymm hbc (hac ▸ h1))

/-- Decidable equality of `Except` values, for evaluating the model on
concrete inputs. -/
instance instDecEqExcept {ε α : Type} [DecidableEq ε] [DecidableEq α] :
    DecidableEq (Except ε α) := fun x y =>
  match x, y with
  | .ok a, .ok b =>
    if h : a = b then isTrue (h ▸ rfl) else isFalse (fun c => h (Except.ok.inj c))
  | .error a, .error b =>
    if h : a = b then isTrue (h ▸ rfl) else isFalse (fun c => h (Except.error.inj c))
  | .ok _, .error _ => isFalse (fun c => Except.noConfusion c)
  | .error _, .ok _ => isFalse (fun c => Except.noConfusion c)

/-! ## Data model -/

/-- Modelled from the spec: a migration source artifact on disk
(`our_db/migrations.py` is not in the source tree; the Discovery Engine of
spec §4.1 is modelled here).  An artifact is a direct-child file of the
migrations directory, described by the observable attributes the loaded
module exposes (`version`, `description`, up-action, down-action) together
with its filename and raw byte content. -/
structure Artifact where
  filename : String
  version : Option String
  description : Option String
  hasUp : Bool
  hasDown : Bool
  content : List Nat
deriving Repr, DecidableEq

/-- Modelled from the spec: a Migration Unit (spec §3) — the immutable
descriptor built from one discovered artifact.  The up/down actions carry
no schema semantics in the model; their invocation is logged in `World`. -/
structure MigrationUnit where
  version : String
  description : String
  checksum : String
deriving Repr, DecidableEq

/-- Modelled from the spec: the typed failure signals surfaced by the
migration subsystem (spec §6/§7): validation failure for a malformed
migration, rejection of duplicate versions, bootstrap on a non-empty
ledger, and rollback of a migration whose artifact is missing. -/
inductive RunError where
  | validation (filename : String) (missing : String)
  | duplicateVersion (version : String)
  | cannotBootstrap
  | missingArtifact (version : String)
deriving Repr, DecidableEq

/-- Modelled from the spec: the human-readable message of each failure
signal (the tests match `"missing required attribute"` and
`"Cannot bootstrap"`). -/
def RunError.message : RunError → String
  | .validation f attr => "Migration " ++ f ++ " missing required attribute: " ++ attr
  | .duplicateVersion v => "Duplicate migration version: " ++ v
  | .cannotBootstrap => "Cannot bootstrap: migrations have already been applied"
  | .missingArtifact v => "Cannot roll back migration " ++ v ++ ": artifact not found"

/-! ## Checksum -/

/-- Byte sequence of a string (UTF-32 code points; ASCII in all inputs used). -/
def strBytes (s : String) : List Nat := s.data.map Char.toNat

/-- Modelled from the spec: a stable, deterministic 64-bit digest of the
complete artifact content (spec §4.1; the concrete hash function of the
missing `_compute_checksum` is unspecified, an FNV-1a-style fold stands in). -/
def digest64 (content : List Nat) : Nat :=
  content.foldl (fun h b => ((h ^^^ (b % 256)) * 1099511628211) % 2 ^ 64) 14695981039346656037

/-- Hexadecimal digit character for `n < 16` (lowercase). -/
def hexDigitChar (n : Nat) : Char :=
  if n < 10 then Char.ofNat (48 + n) else Char.ofNat (87 + n)

/-- Big-endian hexadecimal rendering of `n` in exactly `k` digits. -/
def hexChars : Nat → Nat → List Char
  | 0, _ => []
  | k + 1, n => hexChars k (n / 16) ++ [hexDigitChar (n % 16)]

/-- Modelled from the spec: checksum of an artifact — the digest of its
complete content formatted as 16 hex characters (spec §4.1). -/
def MigrationRunner._compute_checksum (a : Artifact) : String :=
  String.mk (hexChars 16 (digest64 a.content))

/-! ## Discovery -/

/-- A directory: `none` when it does not exist, otherwise its child files. -/
abbrev Directory := Option (List Artifact)

/-- Candidate filter: artifacts whose name begins with the reserved
double-underscore marker are excluded from discovery (spec §4.1). -/
def isCandidate (a : Artifact) : Bool :=
  match a.filename.data with
  | c1 :: c2 :: _ => !(c1 == '_' && c2 == '_')
  | _ => true

/-- The first required attribute (description, up, down) missing from a
recognizable migration artifact, if any. -/
def missingAttr (a : Artifact) : Option String :=
  if a.description = none then some ("description")
  else if a.hasUp = false then some ("up")
  else if a.hasDown = false then some ("down")
  else none

/-- Modelled from the spec: loading one candidate artifact (spec §4.1).
An artifact that does not expose a `version` is not a migration and is
silently skipped (`none`); one that exposes a `version` must also expose
`description`, an up-action and a down-action, else discovery fails with
a validation error naming the artifact and the missing attribute. -/
def loadArtifact (a : Artifact) : Except RunError (Option MigrationUnit) :=
  match a.version with
  | none => .ok none
  | some v =>
    match a.description with
    | none => .error (.validation a.filename ("description"))
    | some d =>
      if a.hasUp then
        if a.hasDown then
          .ok (some { version := v, description := d,
                      checksum := MigrationRunner._compute_checksum a })
        else .error (.validation a.filename ("down"))
      else .error (.validation a.filename ("up"))

/-- Load every candidate artifact in order, aborting on the first failure. -/
def loadAll : List Artifact → Except RunError (List MigrationUnit)
  | [] => .ok []
  | a :: rest =>
    match loadArtifact a with
    | .error e => .error e
    | .ok none => loadAll rest
    | .ok (some u) =>
      match loadAll rest with
      | .error e => .error e
      | .ok us => .ok (u :: us)

/-- Insertion of a unit into a version-sorted list. -/
def insertUnit (u : MigrationUnit) : List MigrationUnit → List MigrationUnit
  | [] => [u]
  | v :: rest => if strLe u.version v.version then u :: v :: rest else v :: insertUnit u rest

/-- Sort units ascending by version (lexical string ordering, spec §4.1). -/
def sortUnits : List MigrationUnit → List MigrationUnit
  | [] => []
  | u :: rest => insertUnit u (sortUnits rest)

/-- Reject duplicate versions in a version-sorted unit list (spec §3:
versions must be unique across all discovered units). -/
def checkUnique : List MigrationUnit → Except RunError Unit
  | [] => .ok ()
  | [_] => .ok ()
  | a :: b :: rest =>
    if a.version = b.version then .error (.duplicateVersion a.version)
    else checkUnique (b :: rest)

/-- Modelled from the spec: one discovery scan of the migrations directory
(spec §4.1): a missing directory yields an empty sequence; otherwise the
candidate artifacts are loaded, sorted ascending by version, and duplicate
versions are rejected. -/
def scanDir (dir : Directory) : Except RunError (List MigrationUnit) :=
  match dir with
  | none => .ok []
  | some files =>
    match loadAll (files.filter isCandidate) with
    | .error e => .error e
    | .ok us =>
      match checkUnique (sortUnits us) with
      | .error e => .error e
      | .ok _ => .ok (sortUnits us)

/-! ## Ledger and world state -/

/-- Modelled from the spec: one row of the `schema_migrations` ledger
table (spec §6). -/
structure LedgerEntry where
  version : String
  description : String
  checksum : String
  applied_at : Nat
deriving Repr, DecidableEq

/-- Modelled from the spec: the observable database-side state threaded
through runner operations — the ledger rows, a log of invoked up- and
down-actions, and a logical clock supplying `applied_at` timestamps. -/
structure World where
  ledger : List LedgerEntry
  upCalls : List String
  downCalls : List String
  clock : Nat
deriving Repr, DecidableEq

/-- The versions currently recorded in the ledger. -/
def appliedVersions (w : World) : List String := w.ledger.map (fun e => e.version)

/-- Applying one pending unit for real: invoke its up-action and insert a
ledger row stamped with the current clock (spec §4.2). -/
def recordUp (w : World) (u : MigrationUnit) : World :=
  { w with
    upCalls := w.upCalls ++ [u.version]
    ledger := w.ledger ++ [{ version := u.version, description := u.description,
                             checksum := u.checksum, applied_at := w.clock }]
    clock := w.clock + 1 }

/-! ## MigrationRunner -/

/-- Modelled from the spec: the Runner state (spec §3) — the migrations
directory and the nullable discovery cache `_migrations` (absent means
not yet discovered or invalidated). -/
structure MigrationRunner where
  migrations_dir : Directory
  _migrations : Option (List MigrationUnit) := none
deriving Repr, DecidableEq

/-- Modelled from the spec: `discover()` (spec §4.1) — returns the cached
sequence when present, otherwise scans the directory and populates the
cache. -/
def MigrationRunner.discover (r : MigrationRunner) :
    Except RunError (List MigrationUnit × MigrationRunner) :=
  match r._migrations with
  | some ms => .ok (ms, r)
  | none =>
    match scanDir r.migrations_dir with
    | .error e => .error e
    | .ok ms => .ok (ms, { r with _migrations := some ms })

/-- Modelled from the spec: `invalidate_cache()` — clears the discovery
cache to the absent state. -/
def MigrationRunner.invalidate_cache (r : MigrationRunner) : MigrationRunner :=
  { r with _migrations := none }

/-- Modelled from the spec: `up(dry_run)` (spec §4.2) — computes
pending = discovered minus ledger-applied versions in discovery order;
under `dry_run` it reports the pending versions without invoking any
up-action or writing the ledger, otherwise it applies each pending unit
in order.  Returns the ordered version list processed. -/
def MigrationRunner.up (r : MigrationRunner) (dry_run : Bool) (w : World) :
    Except RunError (List String × MigrationRunner) × World :=
  match r.discover with
  | .error e => (.error e, w)
  | .ok (ms, r1) =>
    let pending := ms.filter (fun u => !((appliedVersions w).contains u.version))
    if dry_run then
      (.ok (pending.map (fun u => u.version), r1), w)
    else
      (.ok (pending.map (fun u => u.version), r1), pending.foldl recordUp w)

/-- Roll back a list of ledger entries in order: resolve each to its unit
(failing when the artifact is gone), invoke the down-action, delete the
ledger row (spec §4.2). -/
def resolveDown (ms : List MigrationUnit) :
    List LedgerEntry → World → Except RunError (List String) × World
  | [], w => (.ok [], w)
  | e :: rest, w =>
    match ms.find? (fun u => u.version == e.version) with
    | none => (.error (.missingArtifact e.version), w)
    | some u =>
      let w1 := { w with
                  downCalls := w.downCalls ++ [u.version]
                  ledger := w.ledger.filter (fun le => le.version != e.version) }
      match resolveDown ms rest w1 with
      | (.ok vs, w2) => (.ok (e.version :: vs), w2)
      | (.error er, w2) => (.error er, w2)

/-- Modelled from the spec: `down(steps)` (spec §4.2) — determines the
most recently applied `steps` versions from the ledger (reverse apply
order), and when there are none returns an empty list as a success;
otherwise resolves each to its discovered unit and rolls it back. -/
def MigrationRunner.down (r : MigrationRunner) (steps : Nat) (w : World) :
    Except RunError (List String × MigrationRunner) × World :=
  match w.ledger.reverse.take steps with
  | [] => (.ok ([], r), w)
  | e :: rest =>
    match r.discover with
    | .error er => (.error er, w)
    | .ok (ms, r1) =>
      match resolveDown ms (e :: rest) w with
      | (.ok vs, w2) => (.ok (vs, r1), w2)
      | (.error er, w2) => (.error er, w2)

/-- Modelled from the spec: `bootstrap()` (spec §4.2) — fails when any
migration is already recorded in the ledger; on a pristine ledger it
records the earliest discovered migration as applied without invoking
its up-action. -/
def MigrationRunner.bootstrap (r : MigrationRunner) (w : World) :
    Except RunError (List String × MigrationRunner) × World :=
  if w.ledger.isEmpty then
    match r.discover with
    | .error e => (.error e, w)
    | .ok (ms, r1) =>
      match ms with
      | [] => (.ok ([], r1), w)
      | u :: _ =>
        (.ok ([u.version], r1),
         { w with
           ledger := w.ledger ++ [{ version := u.version, description := u.description,
                                    checksum := u.checksum, applied_at := w.clock }]
           clock := w.clock + 1 })
  else (.error .cannotBootstrap, w)

/-- Modelled from the spec: `status()` (spec §4.2) — for each discovered
migration, whether it is applied according to the ledger; read-only. -/
def MigrationRunner.status (r : MigrationRunner) (w : World) :
    Except RunError (List (String × Bool) × MigrationRunner) × World :=
  match r.discover with
  | .error e => (.error e, w)
  | .ok (ms, r1) =>
    (.ok (ms.map (fun u => (u.version, (appliedVersions w).contains u.version)), r1), w)

/-! ## create_migration -/

/-- Slug form of a description: lowercase with spaces replaced by
underscores (the filename `001_add_users_table.py` of the tests). -/
def slugify (s : String) : String :=
  String.mk (s.data.map (fun c => if c == ' ' then '_' else c.toLower))

/-- Decimal digit character for `n % 10`. -/
def decDigitChar (n : Nat) : Char := Char.ofNat (48 + n % 10)

/-- Zero-padded three-digit decimal rendering (the `001`, `002` scheme). -/
def format3 (n : Nat) : String :=
  String.mk [decDigitChar (n / 100), decDigitChar (n / 10 % 10), decDigitChar (n % 10)]

/-- Numeric value of a decimal version string. -/
def parseNat (s : String) : Nat :=
  s.data.foldl (fun acc c => acc * 10 + (c.toNat - 48)) 0

/-- Highest numeric version among discovered units (0 when none). -/
def maxVersion (ms : List MigrationUnit) : Nat :=
  ms.foldl (fun acc u => max acc (parseNat u.version)) 0

/-- Modelled from the spec: the artifact template written by
`create_migration` — pre-populated with the version, the description and
stub up/down actions. -/
def migrationStub (ver descr : String) : String :=
  "version = \"" ++ ver ++ "\"\ndescription = \"" ++ descr ++
  "\"\n\n\ndef up(conn) -> None:\n    pass\n\n\ndef down(conn) -> None:\n    pass\n"

/-- Modelled from the spec: `create_migration(dir, description)`
(spec §4.2) — creates the directory if absent, assigns as version the
highest existing discovered version incremented by one in the zero-padded
three-digit scheme, slugifies the description into the filename, and
writes an artifact exposing that version, the description and stub
up/down actions.  Returns the new artifact and the directory contents
after the write. -/
def MigrationRunner.create_migration (dir : Directory) (description : String) :
    Except RunError (Artifact × List Artifact) :=
  let files := dir.getD []
  match scanDir (some files) with
  | .error e => .error e
  | .ok ms =>
    let ver := format3 (maxVersion ms + 1)
    let art : Artifact :=
      { filename := ver ++ "_" ++ slugify description ++ ".py"
        version := some ver
        description := some description
        hasUp := true
        hasDown := true
        content := strBytes (migrationStub ver description) }
    .ok (art, files ++ [art])

/-! ## Helper lemmas: sorting -/

/-- Weak ordering of units by version. -/
def UnitsLe (u v : MigrationUnit) : Prop := strLe u.version v.version = true

/-- Strictly ascending version order of a unit sequence. -/
def StrictAscending (ms : List MigrationUnit) : Prop :=
  List.Pairwise (fun u v => strLt u.version v.version = true) ms

theorem insertUnit_perm (u : MigrationUnit) (l : List MigrationUnit) :
    (insertUnit u l).Perm (u :: l) := by
  induction l with
  | nil => exact List.Perm.refl _
  | cons v rest ih =>
    by_cases h : strLe u.version v.version = true
    · simp [insertUnit, h]
    · simp only [insertUnit, h, if_false, Bool.false_eq_true]
      exact (ih.cons v).trans (List.Perm.swap u v rest)

theorem sortUnits_perm (l : List MigrationUnit) : (sortUnits l).Perm l := by
  induction l with
  | nil => exact List.Perm.refl _
  | cons u rest ih => exact (insertUnit_perm u (sortUnits rest)).trans (ih.cons u)

theorem insertUnit_sorted (u : MigrationUnit) (l : List MigrationUnit)
    (h : l.Pairwise UnitsLe) : (insertUnit u l).Pairwise UnitsLe := by
  induction l with
  | nil => simp [insertUnit, UnitsLe]
  | cons v rest ih =>
    rcases List.pairwise_cons.mp h with ⟨hv, hrest⟩
    by_cases hc : strLe u.version v.version = true
    · simp only [insertUnit, hc, if_true]
      refine List.pairwise_cons.mpr ⟨?_, h⟩
      intro x hx
      rcases List.mem_cons.mp hx with he | hx
      · subst he; exact hc
      · exact strLe_trans hc (hv x hx)
    · have hvu : strLe v.version u.version = true := by
        rcases strLe_total u.version v.version with h1 | h1
        · exact absurd h1 hc
        · exact h1
      simp only [insertUnit, hc, if_false, Bool.false_eq_true]
      refine List.pairwise_cons.mpr ⟨?_, ih hrest⟩
      intro x hx
      rcases List.mem_cons.mp ((insertUnit_perm u rest).mem_iff.mp hx) with he | hx
      · subst he; exact hvu
      · exact hv x hx

theorem sortUnits_sorted (l : List MigrationUnit) : (sortUnits l).Pairwise UnitsLe := by
  induction l with
  | nil => exact List.Pairwise.nil
  | cons u rest ih => exact insertUnit_sorted u (sortUnits rest) ih

theorem checkUnique_strict : ∀ l : List MigrationUnit,
    l.Pairwise UnitsLe → checkUnique l = .ok () → StrictAscending l := by
  intro l
  induction l with
  | nil => intro _ _; exact List.Pairwise.nil
  | cons a rest ih =>
    intro hp hok
    cases rest with
    | nil => simp [StrictAscending]
    | cons b rs =>
      have hne : ¬ a.version = b.version := by
        intro he
        simp [checkUnique, he] at hok
      have hok2 : checkUnique (b :: rs) = .ok () := by
        simpa [checkUnique, hne] using hok
      rcases List.pairwise_cons.mp hp with ⟨ha, hrest⟩
      have hstrict := ih hrest hok2
      refine List.pairwise_cons.mpr ⟨?_, hstrict⟩
      intro x hx
      have hab : strLe a.version b.version = true := ha b (by simp)
      rcases List.mem_cons.mp hx with he | hxs
      · subst he; exact strLt_iff.mpr ⟨hab, hne⟩
      · rcases List.pairwise_cons.mp hstrict with ⟨hb, _⟩
        exact strLt_of_le_of_lt hab (hb x hxs)

/-! ## Helper lemmas: loading and scanning -/

theorem loadArtifact_cases (a : Artifact) :
    (a.version = none ∧ loadArtifact a = .ok none)
    ∨ (∃ v attr, a.version = some v ∧ missingAttr a = some attr
        ∧ loadArtifact a = .error (.validation a.filename attr))
    ∨ (∃ v d, a.version = some v ∧ a.description = some d ∧ missingAttr a = none
        ∧ loadArtifact a
          = .ok (some (MigrationUnit.mk v d (MigrationRunner._compute_checksum a)))) := by
  cases hv : a.version with
  | none => exact Or.inl ⟨rfl, by simp [loadArtifact, hv]⟩
  | some v =>
    cases hd : a.description with
    | none =>
      refine Or.inr (Or.inl ⟨v, "description", rfl, ?_, ?_⟩)
      · simp [missingAttr, hd]
      · simp [loadArtifact, hv, hd]
    | some d =>
      cases hu : a.hasUp with
      | false =>
        refine Or.inr (Or.inl ⟨v, "up", rfl, ?_, ?_⟩)
        · simp [missingAttr, hd, hu]
        · simp [loadArtifact, hv, hd, hu]
      | true =>
        cases hw : a.hasDown with
        | false =>
          refine Or.inr (Or.inl ⟨v, "down", rfl, ?_, ?_⟩)
          · simp [missingAttr, hd, hu, hw]
          · simp [loadArtifact, hv, hd, hu, hw]
        | true =>
          refine Or.inr (Or.inr ⟨v, d, rfl, rfl, ?_, ?_⟩)
          · simp [missingAttr, hd, hu, hw]
          · simp [loadArtifact, hv, hd, hu, hw]

theorem loadAll_ok_versions : ∀ (l : List Artifact) (us : List MigrationUnit),
    loadAll l = .ok us →
    us.map (fun u => u.version) = l.filterMap (fun a => a.version) := by
  intro l
  induction l with
  | nil =>
    intro us h
    simp only [loadAll] at h
    cases h
    simp
  | cons a rest ih =>
    intro us h
    rcases loadArtifact_cases a with ⟨hv, hla⟩ | ⟨v, attr, hv, _, hla⟩ | ⟨v, d, hv, _, _, hla⟩
    · rw [loadAll, hla] at h
      rw [List.filterMap_cons, hv]
      exact ih us h
    · rw [loadAll, hla] at h
      cases h
    · rw [loadAll, hla] at h
      cases hrest : loadAll rest with
      | error e => rw [hrest] at h; cases h
      | ok us' =>
        rw [hrest] at h
        cases h
        rw [List.filterMap_cons, hv]
        simp [ih us' hrest]

theorem loadAll_error_of_bad : ∀ l : List Artifact,
    (∃ a ∈ l, (∃ v, a.version = some v) ∧ missingAttr a ≠ none) →
    ∃ b attr, b ∈ l ∧ (∃ v, b.version = some v) ∧ missingAttr b = some attr
      ∧ loadAll l = .error (.validation b.filename attr) := by
  intro l
  induction l with
  | nil => rintro ⟨a, ha, _⟩; cases ha
  | cons a rest ih =>
    rintro ⟨x, hx, hxv, hxbad⟩
    rcases loadArtifact_cases a with ⟨hv, hla⟩ | ⟨v, attr, hv, hattr, hla⟩ | ⟨v, d, hv, _, hnone, hla⟩
    · have hxrest : x ∈ rest := by
        rcases List.mem_cons.mp hx with he | h
        · subst he; rcases hxv with ⟨w, hw⟩; rw [hv] at hw; cases hw
        · exact h
      rcases ih ⟨x, hxrest, hxv, hxbad⟩ with ⟨b, attr, hb, hbv, hbattr, herr⟩
      exact ⟨b, attr, List.mem_cons_of_mem a hb, hbv, hbattr, by rw [loadAll, hla]; exact herr⟩
    · exact ⟨a, attr, List.mem_cons_self a rest, ⟨v, hv⟩, hattr, by rw [loadAll, hla]⟩
    · have hxrest : x ∈ rest := by
        rcases List.mem_cons.mp hx with he | h
        · subst he; exact absurd hnone hxbad
        · exact h
      rcases ih ⟨x, hxrest, hxv, hxbad⟩ with ⟨b, attr, hb, hbv, hbattr, herr⟩
      refine ⟨b, attr, List.mem_cons_of_mem a hb, hbv, hbattr, ?_⟩
      rw [loadAll, hla, herr]

theorem scanDir_ok_sorted {dir : Directory} {ms : List MigrationUnit}
    (h : scanDir dir = .ok ms) : StrictAscending ms := by
  cases dir with
  | none =>
    simp only [scanDir] at h
    cases h
    exact List.Pairwise.nil
  | some files =>
    simp only [scanDir] at h
    cases hl : loadAll (files.filter isCandidate) with
    | error e => simp [hl] at h
    | ok us =>
      simp only [hl] at h
      cases hc : checkUnique (sortUnits us) with
      | error e => simp [hc] at h
      | ok u =>
        cases u
        simp only [hc] at h
        cases h
        exact checkUnique_strict (sortUnits us) (sortUnits_sorted us) hc

theorem scanDir_ok_versions {files : List Artifact} {ms : List MigrationUnit}
    (h : scanDir (some files) = .ok ms) :
    (ms.map fun u => u.version).Perm
      ((files.filter isCandidate).filterMap (fun a => a.version)) := by
  simp only [scanDir] at h
  cases hl : loadAll (files.filter isCandidate) with
  | error e => simp [hl] at h
  | ok us =>
    simp only [hl] at h
    cases hc : checkUnique (sortUnits us) with
    | error e => simp [hc] at h
    | ok u =>
      cases u
      simp only [hc] at h
      cases h
      rw [← loadAll_ok_versions _ us hl]
      exact (sortUnits_perm us).map (fun u => u.version)

theorem strictAscending_versions_nodup {ms : List MigrationUnit}
    (h : StrictAscending ms) : (ms.map fun u => u.version).Nodup := by
  have hp : List.Pairwise (fun x y : String => x ≠ y) (ms.map fun u => u.version) := by
    rw [List.pairwise_map]
    exact h.imp (by
      intro a b hab
      exact (strLt_iff.mp hab).2)
  exact hp

/-! ## Helper lemmas: the runner operations -/

/-- The version list `up()` processes: discovered versions minus
ledger-applied versions, in discovery order. -/
def pendingVersions (ms : List MigrationUnit) (w : World) : List String :=
  (ms.filter (fun u => !((appliedVersions w).contains u.version))).map (fun u => u.version)

theorem foldl_recordUp_applied : ∀ (l : List MigrationUnit) (w : World),
    appliedVersions (l.foldl recordUp w)
      = appliedVersions w ++ l.map (fun u => u.version) := by
  intro l
  induction l with
  | nil => intro w; simp
  | cons u rest ih =>
    intro w
    rw [List.foldl_cons, ih]
    simp [recordUp, appliedVersions]

theorem up_eq (r r1 : MigrationRunner) (ms : List MigrationUnit) (w : World)
    (h : r.discover = .ok (ms, r1)) :
    r.up false w
      = (.ok (pendingVersions ms w, r1),
         (ms.filter (fun u => !((appliedVersions w).contains u.version))).foldl recordUp w)
    ∧ r.up true w = (.ok (pendingVersions ms w, r1), w) := by
  constructor <;> simp [MigrationRunner.up, h, pendingVersions]

theorem discover_fresh (dir : Directory) (ms : List MigrationUnit)
    (hscan : scanDir dir = .ok ms) :
    MigrationRunner.discover { migrations_dir := dir, _migrations := none }
      = .ok (ms, { migrations_dir := dir, _migrations := some ms }) := by
  simp [MigrationRunner.discover, hscan]

theorem pendingVersions_nil_of_applied (ms : List MigrationUnit) (w : World)
    (h : ∀ u ∈ ms, u.version ∈ appliedVersions w) :
    ms.filter (fun u => !((appliedVersions w).contains u.version)) = []
    ∧ pendingVersions ms w = [] := by
  have hf : ms.filter (fun u => !((appliedVersions w).contains u.version)) = [] := by
    apply List.filter_eq_nil_iff.mpr
    intro u hu
    simp [List.elem_iff, h u hu]
  exact ⟨hf, by unfold pendingVersions; rw [hf]; rfl⟩

/-! ## Claim theorems -/

/-- C1: for every migrations directory and ledger state, `up()` processes
and returns exactly the pending versions — the discovered versions minus
the ledger-applied versions, in ascending (strict lexical) version
order — and a second `up()` immediately after, with no new artifacts,
returns the empty list. -/
theorem up_applies_exactly_pending
    (dir : Directory) (w : World) (ms : List MigrationUnit)
    (hscan : scanDir dir = .ok ms) :
    ∃ w1,
      MigrationRunner.up { migrations_dir := dir, _migrations := none } false w
        = (.ok (pendingVersions ms w,
                { migrations_dir := dir, _migrations := some ms }), w1)
      ∧ List.Pairwise (fun a b => strLt a b = true) (pendingVersions ms w)
      ∧ MigrationRunner.up { migrations_dir := dir, _migrations := some ms } false w1
        = (.ok ([], { migrations_dir := dir, _migrations := some ms }), w1) := by
  obtain ⟨h1, _⟩ := up_eq _ _ ms w (discover_fresh dir ms hscan)
  refine ⟨_, h1, ?_, ?_⟩
  · unfold pendingVersions
    simp only [List.pairwise_map]
    exact (scanDir_ok_sorted hscan).filter _
  · obtain ⟨h2, _⟩ :=
      up_eq { migrations_dir := dir, _migrations := some ms }
        { migrations_dir := dir, _migrations := some ms } ms
        ((ms.filter (fun u => !((appliedVersions w).contains u.version))).foldl recordUp w) rfl
    rw [h2]
    have hall : ∀ u ∈ ms, u.version ∈ appliedVersions
        ((ms.filter (fun u => !((appliedVersions w).contains u.version))).foldl recordUp w) := by
      intro u hu
      rw [foldl_recordUp_applied]
      by_cases hin : (appliedVersions w).contains u.version
      · exact List.mem_append_left _ (List.elem_iff.mp hin)
      · refine List.mem_append_right _ ?_
        exact List.mem_map.mpr ⟨u, List.mem_filter.mpr ⟨hu, by simpa using hin⟩, rfl⟩
    obtain ⟨hf, hp⟩ := pendingVersions_nil_of_applied ms _ hall
    rw [hp, hf]
    rfl

/-- C5: `up(dry_run := true)` returns the very version list a real run
would return from the same state, leaves the world (ledger, action log)
untouched, and every version it reports is still pending afterwards. -/
theorem up_dry_run_reports_without_writing
    (dir : Directory) (w : World) (ms : List MigrationUnit)
    (hscan : scanDir dir = .ok ms) :
    ∃ vs r1 w1,
      MigrationRunner.up { migrations_dir := dir, _migrations := none } true w
        = (.ok (vs, r1), w)
      ∧ MigrationRunner.up { migrations_dir := dir, _migrations := none } false w
        = (.ok (vs, r1), w1)
      ∧ (∀ v ∈ vs, ¬ v ∈ appliedVersions w) := by
  obtain ⟨h1, h2⟩ := up_eq _ _ ms w (discover_fresh dir ms hscan)
  refine ⟨pendingVersions ms w, _, _, h2, h1, ?_⟩
  intro v hv
  rcases List.mem_map.mp hv with ⟨u, hu, rfl⟩
  rcases List.mem_filter.mp hu with ⟨_, hpu⟩
  intro hmem
  simp [List.elem_iff, hmem] at hpu

/-- C6: the three empty-state cases succeed with empty results and no
writes: discovery of a missing or empty directory, `up()` with nothing
pending, and `down()` with nothing applied. -/
theorem empty_states_succeed :
    (scanDir none = .ok [] ∧ scanDir (some []) = .ok [])
    ∧ (∀ (dir : Directory) (w : World) (ms : List MigrationUnit),
        scanDir dir = .ok ms →
        (∀ u ∈ ms, u.version ∈ appliedVersions w) →
        MigrationRunner.up { migrations_dir := dir, _migrations := none } false w
          = (.ok ([], { migrations_dir := dir, _migrations := some ms }), w))
    ∧ (∀ (r : MigrationRunner) (steps : Nat) (w : World),
        w.ledger = [] → r.down steps w = (.ok ([], r), w)) := by
  refine ⟨⟨rfl, rfl⟩, ?_, ?_⟩
  · intro dir w ms hscan hall
    obtain ⟨h1, _⟩ := up_eq _ _ ms w (discover_fresh dir ms hscan)
    obtain ⟨hf, hp⟩ := pendingVersions_nil_of_applied ms w hall
    rw [h1, hp, hf]
    rfl
  · intro r steps w hl
    simp [MigrationRunner.down, hl]

/-- C2: a directory holding a candidate artifact that is recognizable as
a migration (it exposes a `version`) but is missing a required attribute
makes `discover()` fail with a validation error naming the missing
attribute and the artifact; discovery aborts entirely with no partial
results. -/
theorem discover_aborts_on_malformed
    (files : List Artifact) (a : Artifact) (v : String)
    (ha : a ∈ files) (hc : isCandidate a = true)
    (hv : a.version = some v) (hbad : missingAttr a ≠ none) :
    ∃ b attr, b ∈ files ∧ isCandidate b = true
      ∧ (∃ u, b.version = some u) ∧ missingAttr b = some attr
      ∧ scanDir (some files) = .error (.validation b.filename attr)
      ∧ RunError.message (.validation b.filename attr)
          = "Migration " ++ b.filename ++ " missing required attribute: " ++ attr
      ∧ ∀ ms, scanDir (some files) ≠ .ok ms := by
  have hmem : a ∈ files.filter isCandidate := List.mem_filter.mpr ⟨ha, hc⟩
  rcases loadAll_error_of_bad (files.filter isCandidate) ⟨a, hmem, ⟨v, hv⟩, hbad⟩
    with ⟨b, attr, hb, hbv, hbattr, herr⟩
  rcases List.mem_filter.mp hb with ⟨hbfiles, hbcand⟩
  have hscan : scanDir (some files) = .error (.validation b.filename attr) := by
    simp [scanDir, herr]
  exact ⟨b, attr, hbfiles, hbcand, hbv, hbattr, hscan, rfl, by rw [hscan]; intro ms h; cases h⟩

/-- C3: every successful `discover()` result is strictly ascending in
version under lexical string ordering (hence has no duplicate versions),
and a directory containing two recognizable artifacts carrying the same
version is rejected: discovery fails rather than returning a sequence
with a repeated version. -/
theorem discover_sorted_and_unique (dir : Directory) :
    (∀ ms, scanDir dir = .ok ms →
        List.Pairwise (fun u v => strLt u.version v.version = true) ms
        ∧ (ms.map fun u => u.version).Nodup)
    ∧ (∀ files v, dir = some files →
        2 ≤ ((files.filter isCandidate).filterMap (fun a => a.version)).count v →
        ∃ e, scanDir dir = .error e) := by
  constructor
  · intro ms h
    exact ⟨scanDir_ok_sorted h, strictAscending_versions_nodup (scanDir_ok_sorted h)⟩
  · intro files v hdir hcount
    subst hdir
    cases hs : scanDir (some files) with
    | error e => exact ⟨e, rfl⟩
    | ok ms =>
      exfalso
      have hnodup := strictAscending_versions_nodup (scanDir_ok_sorted hs)
      have hperm := scanDir_ok_versions hs
      have hle := List.nodup_iff_count_le_one.mp hnodup v
      rw [hperm.count_eq v] at hle
      omega

/-- C4: `bootstrap()` on a ledger with at least one recorded migration
always fails — whatever the runner's directory or cache holds — with the
"Cannot bootstrap" error and an unchanged world; and `bootstrap()` can
succeed only on a pristine (empty) ledger. -/
theorem bootstrap_only_on_pristine (r : MigrationRunner) (w : World) :
    (w.ledger ≠ [] →
      r.bootstrap w = (.error .cannotBootstrap, w)
      ∧ RunError.message .cannotBootstrap
          = "Cannot bootstrap: migrations have already been applied")
    ∧ (∀ x w1, r.bootstrap w = (.ok x, w1) → w.ledger = []) := by
  have hb : w.ledger ≠ [] → r.bootstrap w = (.error .cannotBootstrap, w) := by
    intro hne
    have hemp : w.ledger.isEmpty = false := by
      cases hl : w.ledger with
      | nil => exact absurd hl hne
      | cons e rest => rfl
    simp [MigrationRunner.bootstrap, hemp]
  refine ⟨fun hne => ⟨hb hne, rfl⟩, ?_⟩
  intro x w1 h
  by_cases hl : w.ledger = []
  · exact hl
  · exfalso
    rw [hb hl] at h
    have hfst := congrArg Prod.fst h
    simp at hfst

/-- C7: once `discover()` has populated the cache, every later
`discover()` returns the same cached sequence without re-scanning, even
when the underlying directory differs, until `invalidate_cache()` resets
the cache to the absent state; the next `discover()` after invalidation
re-scans and reflects the directory passed at that point. -/
theorem discover_caches_until_invalidated
    (r : MigrationRunner) (ms : List MigrationUnit) (r1 : MigrationRunner)
    (h : r.discover = .ok (ms, r1)) :
    r1._migrations = some ms
    ∧ (∀ d : Directory,
        MigrationRunner.discover { migrations_dir := d, _migrations := some ms }
          = .ok (ms, { migrations_dir := d, _migrations := some ms }))
    ∧ (∀ d : Directory,
        (MigrationRunner.invalidate_cache
            { migrations_dir := d, _migrations := some ms })._migrations = none)
    ∧ (∀ (d : Directory) (us : List MigrationUnit), scanDir d = .ok us →
        (MigrationRunner.invalidate_cache
            { migrations_dir := d, _migrations := some ms }).discover
          = .ok (us, { migrations_dir := d, _migrations := some us })) := by
  refine ⟨?_, fun d => rfl, fun d => rfl, ?_⟩
  · cases hr : r._migrations with
    | some c =>
      rw [MigrationRunner.discover, hr] at h
      have h2 := Except.ok.inj h
      have hms : c = ms := congrArg Prod.fst h2
      have hrr : r = r1 := congrArg Prod.snd h2
      rw [← hrr, hr, hms]
    | none =>
      rw [MigrationRunner.discover, hr] at h
      cases hs : scanDir r.migrations_dir with
      | error e => rw [hs] at h; cases h
      | ok us =>
        rw [hs] at h
        have h2 := Except.ok.inj h
        have hms : us = ms := congrArg Prod.fst h2
        have hrr : { r with _migrations := some us } = r1 := congrArg Prod.snd h2
        rw [← hrr, hms]
  · intro d us hscan
    simp [MigrationRunner.invalidate_cache, MigrationRunner.discover, hscan]

/-! ## Helper lemmas: hex rendering and version numerals -/

/-- Lowercase hexadecimal digit characters. -/
def isHexChar (c : Char) : Bool :=
  (48 ≤ c.toNat && c.toNat ≤ 57) || (97 ≤ c.toNat && c.toNat ≤ 102)

theorem hexChars_length : ∀ (k n : Nat), (hexChars k n).length = k := by
  intro k
  induction k with
  | zero => intro n; rfl
  | succ k ih =>
    intro n
    simp [hexChars, ih]

theorem hexChars_hex : ∀ (k n : Nat), ∀ c ∈ hexChars k n, isHexChar c = true := by
  have hdigit : ∀ m, m < 16 → isHexChar (hexDigitChar m) = true := by decide
  intro k
  induction k with
  | zero => intro n c hc; cases hc
  | succ k ih =>
    intro n c hc
    rcases List.mem_append.mp hc with h | h
    · exact ih (n / 16) c h
    · rcases List.mem_singleton.mp h with rfl
      exact hdigit (n % 16) (Nat.mod_lt n (by omega))

theorem decDigitChar_toNat (k : Nat) : (decDigitChar k).toNat = 48 + k % 10 := by
  have aux : ∀ m, m < 10 → (Char.ofNat (48 + m)).toNat = 48 + m := by decide
  exact aux (k % 10) (Nat.mod_lt k (by omega))

theorem parseNat_format3 (n : Nat) (h : n ≤ 999) : parseNat (format3 n) = n := by
  show List.foldl _ 0 (format3 n).data = n
  have h1 := decDigitChar_toNat (n / 100)
  have h2 := decDigitChar_toNat (n / 10 % 10)
  have h3 := decDigitChar_toNat (n % 10)
  simp only [format3, List.foldl]
  rw [h1, h2, h3]
  omega

theorem le_maxVersion : ∀ (ms : List MigrationUnit) (acc : Nat),
    acc ≤ ms.foldl (fun a u => max a (parseNat u.version)) acc
    ∧ ∀ u ∈ ms, parseNat u.version ≤ ms.foldl (fun a u => max a (parseNat u.version)) acc := by
  intro ms
  induction ms with
  | nil => intro acc; exact ⟨Nat.le_refl acc, by intro u hu; cases hu⟩
  | cons m rest ih =>
    intro acc
    rcases ih (max acc (parseNat m.version)) with ⟨hacc, hmem⟩
    refine ⟨Nat.le_trans (Nat.le_max_left _ _) hacc, ?_⟩
    intro u hu
    rcases List.mem_cons.mp hu with rfl | hu
    · exact Nat.le_trans (Nat.le_max_right _ _) hacc
    · exact hmem u hu

/-! ## Claim theorems (continued) -/

/-- C8: `_compute_checksum` depends only on the file content (identical
content yields the identical checksum), always yields exactly 16
lowercase hexadecimal characters, and the two distinct test contents
`"content a"` and `"content b"` yield different checksums. -/
theorem checksum_deterministic_16_hex :
    (∀ a b : Artifact, a.content = b.content →
        MigrationRunner._compute_checksum a = MigrationRunner._compute_checksum b)
    ∧ (∀ a : Artifact, (MigrationRunner._compute_checksum a).length = 16
        ∧ ∀ c ∈ (MigrationRunner._compute_checksum a).data, isHexChar c = true)
    ∧ MigrationRunner._compute_checksum
        (Artifact.mk ("a.py") none none false false (strBytes ("content a")))
      ≠ MigrationRunner._compute_checksum
        (Artifact.mk ("b.py") none none false false (strBytes ("content b"))) := by
  refine ⟨?_, ?_, by decide⟩
  · intro a b hab
    unfold MigrationRunner._compute_checksum
    rw [hab]
  · intro a
    constructor
    · show (hexChars 16 (digest64 a.content)).length = 16
      exact hexChars_length 16 _
    · intro c hc
      exact hexChars_hex 16 (digest64 a.content) c hc

/-- C9: `create_migration(dir, description)` treats an absent directory
as empty (creating it), assigns as the new version the highest existing
discovered version plus one in the zero-padded three-digit scheme — never
colliding with an existing version — slugifies the description into the
filename, and writes an artifact exposing that version, the description
and stub up/down actions. -/
theorem create_migration_next_version
    (files : List Artifact) (d : String) (ms : List MigrationUnit)
    (hscan : scanDir (some files) = .ok ms)
    (hbound : maxVersion ms + 1 ≤ 999) :
    (MigrationRunner.create_migration none d
      = MigrationRunner.create_migration (some []) d)
    ∧ ∃ art, MigrationRunner.create_migration (some files) d = .ok (art, files ++ [art])
      ∧ art.version = some (format3 (maxVersion ms + 1))
      ∧ art.description = some d
      ∧ art.hasUp = true ∧ art.hasDown = true
      ∧ art.filename = format3 (maxVersion ms + 1) ++ "_" ++ slugify d ++ ".py"
      ∧ art.content = strBytes (migrationStub (format3 (maxVersion ms + 1)) d)
      ∧ ∀ u ∈ ms, u.version ≠ format3 (maxVersion ms + 1) := by
  refine ⟨rfl, ?_⟩
  refine ⟨Artifact.mk (format3 (maxVersion ms + 1) ++ "_" ++ slugify d ++ ".py")
      (some (format3 (maxVersion ms + 1))) (some d) true true
      (strBytes (migrationStub (format3 (maxVersion ms + 1)) d)),
    ?_, rfl, rfl, rfl, rfl, rfl, rfl, ?_⟩
  · show MigrationRunner.create_migration (some files) d = _
    simp [MigrationRunner.create_migration, hscan, maxVersion]
  · intro u hu he
    have hle : parseNat u.version ≤ maxVersion ms := (le_maxVersion ms 0).2 u hu
    have hp : parseNat (format3 (maxVersion ms + 1)) = maxVersion ms + 1 :=
      parseNat_format3 _ hbound
    rw [he, hp] at hle
    omega

/-! ## Concrete fixtures for evaluating the claims -/

/-- A valid migration artifact with version `001`. -/
def artA : Artifact :=
  Artifact.mk ("001_create_table.py") (some ("001")) (some ("Create table"))
    true true (strBytes ("m1"))

/-- A valid migration artifact with version `002`. -/
def artB : Artifact :=
  Artifact.mk ("002_add_users.py") (some ("002")) (some ("Add users"))
    true true (strBytes ("m2"))

/-- A malformed migration artifact: exposes `version` only. -/
def badArt : Artifact :=
  Artifact.mk ("001_bad.py") (some ("001")) none false false (strBytes ("bad"))

/-- A valid artifact re-using version `001`. -/
def dupArt : Artifact :=
  Artifact.mk ("001_other.py") (some ("001")) (some ("Other"))
    true true (strBytes ("other"))

/-- The unit discovered from `artA`. -/
def unitA : MigrationUnit :=
  MigrationUnit.mk ("001") ("Create table") (MigrationRunner._compute_checksum artA)

/-- The unit discovered from `artB`. -/
def unitB : MigrationUnit :=
  MigrationUnit.mk ("002") ("Add users") (MigrationRunner._compute_checksum artB)

/-- Pristine world: empty ledger, no actions invoked. -/
def emptyWorld : World := World.mk [] [] [] 0

/-- World in which version `001` has been applied. -/
def appliedWorld : World :=
  World.mk [LedgerEntry.mk ("001") ("Create table") ("abc") 0] [] [] 1

/-! ## Witnesses -/

/-- Witness for C1 at a two-artifact directory (listed out of order) with
version `001` already applied: `up()` returns exactly `["002"]`. -/
theorem up_applies_exactly_pending_witness :
    scanDir (some [artB, artA]) = .ok [unitA, unitB]
    ∧ (∃ w1,
        MigrationRunner.up
            (MigrationRunner.mk (some [artB, artA]) none) false appliedWorld
          = (.ok (pendingVersions [unitA, unitB] appliedWorld,
                  MigrationRunner.mk (some [artB, artA]) (some [unitA, unitB])), w1)
        ∧ List.Pairwise (fun a b => strLt a b = true)
            (pendingVersions [unitA, unitB] appliedWorld)
        ∧ MigrationRunner.up
            (MigrationRunner.mk (some [artB, artA]) (some [unitA, unitB])) false w1
          = (.ok ([], MigrationRunner.mk (some [artB, artA]) (some [unitA, unitB])), w1)) :=
  ⟨by decide,
   up_applies_exactly_pending (some [artB, artA]) appliedWorld [unitA, unitB] (by decide)⟩

/-- Witness for C2 at a directory holding one artifact that exposes only
`version`. -/
theorem discover_aborts_on_malformed_witness :
    (badArt ∈ [badArt] ∧ isCandidate badArt = true
      ∧ badArt.version = some ("001") ∧ missingAttr badArt ≠ none)
    ∧ ∃ b attr, b ∈ [badArt] ∧ isCandidate b = true
      ∧ (∃ u, b.version = some u) ∧ missingAttr b = some attr
      ∧ scanDir (some [badArt]) = .error (.validation b.filename attr)
      ∧ RunError.message (.validation b.filename attr)
          = "Migration " ++ b.filename ++ " missing required attribute: " ++ attr
      ∧ ∀ ms, scanDir (some [badArt]) ≠ .ok ms :=
  ⟨⟨by decide, by decide, by decide, by decide⟩,
   discover_aborts_on_malformed [badArt] badArt ("001")
     (by decide) (by decide) (by decide) (by decide)⟩

/-- Witness for C3: the sorted two-unit discovery result, and rejection
of a directory with two artifacts both carrying version `001`. -/
theorem discover_sorted_and_unique_witness :
    (scanDir (some [artB, artA]) = .ok [unitA, unitB]
      ∧ List.Pairwise (fun u v => strLt u.version v.version = true) [unitA, unitB]
      ∧ ([unitA, unitB].map fun u => u.version).Nodup)
    ∧ (2 ≤ (([artA, dupArt].filter isCandidate).filterMap (fun a => a.version)).count ("001")
      ∧ ∃ e, scanDir (some [artA, dupArt]) = .error e) :=
  ⟨⟨by decide,
    (discover_sorted_and_unique (some [artB, artA])).1 [unitA, unitB] (by decide)⟩,
   by decide,
   (discover_sorted_and_unique (some [artA, dupArt])).2 [artA, dupArt] ("001")
     rfl (by decide)⟩

/-- Witness for C4 at a world whose ledger records version `001`. -/
theorem bootstrap_only_on_pristine_witness :
    appliedWorld.ledger ≠ []
    ∧ (MigrationRunner.bootstrap (MigrationRunner.mk none none) appliedWorld
        = (.error .cannotBootstrap, appliedWorld)
      ∧ RunError.message .cannotBootstrap
          = "Cannot bootstrap: migrations have already been applied") :=
  ⟨by decide,
   (bootstrap_only_on_pristine (MigrationRunner.mk none none) appliedWorld).1 (by decide)⟩

/-- Witness for C5 at a one-artifact directory and a pristine world. -/
theorem up_dry_run_reports_without_writing_witness :
    scanDir (some [artA]) = .ok [unitA]
    ∧ (∃ vs r1 w1,
        MigrationRunner.up (MigrationRunner.mk (some [artA]) none) true emptyWorld
          = (.ok (vs, r1), emptyWorld)
        ∧ MigrationRunner.up (MigrationRunner.mk (some [artA]) none) false emptyWorld
          = (.ok (vs, r1), w1)
        ∧ (∀ v ∈ vs, ¬ v ∈ appliedVersions emptyWorld)) :=
  ⟨by decide,
   up_dry_run_reports_without_writing (some [artA]) emptyWorld [unitA] (by decide)⟩

/-- Witness for C6: the three empty-state cases on concrete inputs. -/
theorem empty_states_succeed_witness :
    scanDir none = .ok []
    ∧ MigrationRunner.up (MigrationRunner.mk (some []) none) false emptyWorld
        = (.ok ([], MigrationRunner.mk (some []) (some [])), emptyWorld)
    ∧ MigrationRunner.down (MigrationRunner.mk none none) 1 emptyWorld
        = (.ok ([], MigrationRunner.mk none none), emptyWorld) :=
  ⟨empty_states_succeed.1.1,
   empty_states_succeed.2.1 (some []) emptyWorld [] (by decide) (by decide),
   empty_states_succeed.2.2 (MigrationRunner.mk none none) 1 emptyWorld rfl⟩

/-- Witness for C7 at a one-artifact directory whose discovery populates
the cache with `[unitA]`. -/
theorem discover_caches_until_invalidated_witness :
    MigrationRunner.discover (MigrationRunner.mk (some [artA]) none)
      = .ok ([unitA], MigrationRunner.mk (some [artA]) (some [unitA]))
    ∧ ((MigrationRunner.mk (some [artA]) (some [unitA]))._migrations = some [unitA]
      ∧ (∀ d : Directory,
          MigrationRunner.discover { migrations_dir := d, _migrations := some [unitA] }
            = .ok ([unitA], { migrations_dir := d, _migrations := some [unitA] }))
      ∧ (∀ d : Directory,
          (MigrationRunner.invalidate_cache
              { migrations_dir := d, _migrations := some [unitA] })._migrations = none)
      ∧ (∀ (d : Directory) (us : List MigrationUnit), scanDir d = .ok us →
          (MigrationRunner.invalidate_cache
              { migrations_dir := d, _migrations := some [unitA] }).discover
            = .ok (us, { migrations_dir := d, _migrations := some us }))) :=
  ⟨by decide,
   discover_caches_until_invalidated (MigrationRunner.mk (some [artA]) none)
     [unitA] (MigrationRunner.mk (some [artA]) (some [unitA])) (by decide)⟩

/-- Witness for C8 evaluated at `artA`. -/
theorem checksum_deterministic_16_hex_witness :
    artA.content = artA.content
    ∧ MigrationRunner._compute_checksum artA = MigrationRunner._compute_checksum artA
    ∧ (MigrationRunner._compute_checksum artA).length = 16 :=
  ⟨rfl,
   checksum_deterministic_16_hex.1 artA artA rfl,
   (checksum_deterministic_16_hex.2.1 artA).1⟩

/-- Witness for C9: an empty directory yields version `001`
(`001_add_users_table.py`), and a directory already holding `001` yields
version `002`. -/
theorem create_migration_next_version_witness :
    format3 (maxVersion ([] : List MigrationUnit) + 1) = "001"
    ∧ format3 (maxVersion [unitA] + 1) = "002"
    ∧ (format3 (maxVersion ([] : List MigrationUnit) + 1)
        ++ "_" ++ slugify ("add users table") ++ ".py") = "001_add_users_table.py"
    ∧ (scanDir (some ([] : List Artifact)) = .ok [] ∧ maxVersion [] + 1 ≤ 999
      ∧ ∃ art, MigrationRunner.create_migration (some []) ("add users table")
          = .ok (art, [] ++ [art])
        ∧ art.version = some (format3 (maxVersion ([] : List MigrationUnit) + 1))
        ∧ art.filename
            = format3 (maxVersion ([] : List MigrationUnit) + 1)
              ++ "_" ++ slugify ("add users table") ++ ".py")
    ∧ (scanDir (some [artA]) = .ok [unitA] ∧ maxVersion [unitA] + 1 ≤ 999
      ∧ ∃ art, MigrationRunner.create_migration (some [artA]) ("second")
          = .ok (art, [artA] ++ [art])
        ∧ art.version = some (format3 (maxVersion [unitA] + 1))
        ∧ ∀ u ∈ [unitA], u.version ≠ format3 (maxVersion [unitA] + 1)) :=
  ⟨by decide, by decide, by decide,
   ⟨rfl, by decide, by
    rcases (create_migration_next_version [] ("add users table") [] rfl (by decide)).2
      with ⟨art, h1, h2, _, _, _, h6, _, _⟩
    exact ⟨art, h1, h2, h6⟩⟩,
   ⟨by decide, by decide, by
    rcases (create_migration_next_version [artA] ("second") [unitA] (by decide)
        (by decide)).2
      with ⟨art, h1, h2, _, _, _, _, _, h9⟩
    exact ⟨art, h1, h2, h9⟩⟩⟩

end OurDb
